import Mathlib

/-
Verification of the WIT (WebAssembly Interface Type) resolution library.

The development shallowly embeds the Go sources under src/wit/:
strings are modelled as lists of characters, Go (value, error) returns as
products with an Option/Except error component, and the subprocess-driven
loader as a pure function over the facts that decide its control flow.
-/

namespace WitSpec

/-- Strings are modelled as lists of characters. Go strings are byte
slices; every separator the code cuts on is a single ASCII byte, so a
character-level model is faithful for the operations used here. -/
abbrev Str := List Char

/-- Models Go strings.Cut(s, sep) for a one-character separator: returns
the part before the first occurrence of sep, the part after it, and
whether sep was found. When sep is absent it returns (s, "", false). -/
def cut (s : Str) (sep : Char) : Str × Str × Bool :=
  match s with
  | [] => ([], [], false)
  | c :: rest =>
    if c = sep then ([], rest, true)
    else
      let r := cut rest sep
      (c :: r.1, r.2.1, r.2.2)

theorem cut_sep_not_mem_fst (s : Str) (sep : Char) : sep ∉ (cut s sep).1 := by
  induction s with
  | nil => simp [cut]
  | cons c rest ih =>
    by_cases h : c = sep
    · simp [cut, h]
    · simp [cut, h]
      exact ⟨Ne.symm h, ih⟩

theorem cut_of_not_mem (s : Str) (sep : Char) (h : sep ∉ s) : cut s sep = (s, [], false) := by
  induction s with
  | nil => simp [cut]
  | cons c rest ih =>
    simp only [List.mem_cons, not_or] at h
    simp [cut, Ne.symm h.1, ih h.2]

theorem cut_append (l₁ l₂ : Str) (sep : Char) (h : sep ∉ l₁) :
    cut (l₁ ++ sep :: l₂) sep = (l₁, l₂, true) := by
  induction l₁ with
  | nil => simp [cut]
  | cons c rest ih =>
    simp only [List.mem_cons, not_or] at h
    simp [cut, Ne.symm h.1, ih h.2]

theorem cut_recover (s : Str) (sep : Char) (h : (cut s sep).2.2 = true) :
    s = (cut s sep).1 ++ sep :: (cut s sep).2.1 := by
  induction s with
  | nil => simp [cut] at h
  | cons c rest ih =>
    by_cases hc : c = sep
    · simp [cut, hc]
    · simp only [cut, if_neg hc] at h ⊢
      exact congrArg (c :: ·) (ih h)

theorem cut_of_false (s : Str) (sep : Char) (h : (cut s sep).2.2 = false) :
    (cut s sep).1 = s ∧ (cut s sep).2.1 = [] := by
  induction s with
  | nil => simp [cut]
  | cons c rest ih =>
    by_cases hc : c = sep
    · simp [cut, hc] at h
    · simp only [cut, if_neg hc] at h ⊢
      exact ⟨congrArg (c :: ·) (ih h).1, (ih h).2⟩

theorem cut_fst_subset {s : Str} {sep c : Char} (h : c ∈ (cut s sep).1) : c ∈ s := by
  rcases hb : (cut s sep).2.2 with _ | _
  · rw [(cut_of_false s sep hb).1] at h; exact h
  · rw [cut_recover s sep hb]; exact List.mem_append_left _ h

theorem cut_snd_subset {s : Str} {sep c : Char} (h : c ∈ (cut s sep).2.1) : c ∈ s := by
  rcases hb : (cut s sep).2.2 with _ | _
  · rw [(cut_of_false s sep hb).2] at h; simp at h
  · rw [cut_recover s sep hb]
    exact List.mem_append_right _ (List.mem_cons_of_mem _ h)

/-- Models splitOff from the semantic-version library used by the code
(coreos go-semver): SplitN(s, delim, 2); when the delimiter occurs, the
input is replaced by the part before it and the part after is returned,
otherwise the input is unchanged and the empty string is returned. The
pair is (remaining input, split-off value). -/
def splitOff (s : Str) (delim : Char) : Str × Str :=
  let r := cut s delim
  if r.2.2 then (r.1, r.2.1) else (s, [])

/-- Models Go strings.SplitN(s, sep, 3) for a one-character separator:
at most three parts, the last part keeping any further separators. -/
def splitN3 (s : Str) (sep : Char) : List Str :=
  let r1 := cut s sep
  if r1.2.2 = false then [r1.1]
  else
    let r2 := cut r1.2.1 sep
    if r2.2.2 = false then [r1.1, r2.1] else [r1.1, r2.1, r2.2.1]

theorem splitOff_fst_not_mem (s : Str) (delim : Char) : delim ∉ (splitOff s delim).1 := by
  unfold splitOff
  rcases hb : (cut s delim).2.2 with _ | _
  · simp only [hb, if_neg Bool.false_ne_true]
    rw [← (cut_of_false s delim hb).1]
    exact cut_sep_not_mem_fst s delim
  · simp only [hb, if_pos rfl]
    exact cut_sep_not_mem_fst s delim

theorem splitOff_fst_subset {s : Str} {delim c : Char} (h : c ∈ (splitOff s delim).1) :
    c ∈ s := by
  unfold splitOff at h
  rcases hb : (cut s delim).2.2 with _ | _ <;> simp only [hb] at h
  · simpa using h
  · exact cut_fst_subset (by simpa using h)

theorem splitOff_snd_subset {s : Str} {delim c : Char} (h : c ∈ (splitOff s delim).2) :
    c ∈ s := by
  unfold splitOff at h
  rcases hb : (cut s delim).2.2 with _ | _ <;> simp only [hb] at h
  · simp at h
  · exact cut_snd_subset (by simpa using h)

theorem splitOff_of_not_mem (s : Str) (delim : Char) (h : delim ∉ s) :
    splitOff s delim = (s, []) := by
  unfold splitOff
  rw [cut_of_not_mem s delim h]
  simp

theorem splitOff_append (l₁ l₂ : Str) (delim : Char) (h : delim ∉ l₁) :
    splitOff (l₁ ++ delim :: l₂) delim = (l₁, l₂) := by
  unfold splitOff
  rw [cut_append l₁ l₂ delim h]
  simp

/-- The decimal digit characters. -/
def digitChars : Str := ['0', '1', '2', '3', '4', '5', '6', '7', '8', '9']

/-- The character for a single decimal digit. -/
def digitChar (n : Nat) : Char :=
  match n with
  | 0 => '0'
  | 1 => '1'
  | 2 => '2'
  | 3 => '3'
  | 4 => '4'
  | 5 => '5'
  | 6 => '6'
  | 7 => '7'
  | 8 => '8'
  | _ => '9'

/-- Accumulating decimal evaluation of a digit string; any non-digit
character fails. Models the digit loop of Go strconv.ParseInt. -/
def digitsVal (s : Str) (acc : Nat) : Option Nat :=
  match s with
  | [] => some acc
  | c :: rest =>
    if c ∈ digitChars then digitsVal rest (acc * 10 + (c.toNat - 48)) else none

/-- Decimal value of a digit string; the empty string fails, as in Go
strconv.ParseInt. -/
def parseDigitsNat (s : Str) : Option Nat :=
  match s with
  | [] => none
  | _ => digitsVal s 0

/-- Largest value of Go int64. -/
def maxInt64 : Nat := 9223372036854775807

/-- Models Go strconv.ParseInt(s, 10, 64): an optional single leading
sign, then a non-empty run of decimal digits; overflow past the int64
range is an error. -/
def parseInt64 (s : Str) : Option Int :=
  match s with
  | [] => none
  | c :: rest =>
    if c = '+' then
      (parseDigitsNat rest).bind (fun n => if n ≤ maxInt64 then some (n : Int) else none)
    else if c = '-' then
      (parseDigitsNat rest).bind (fun n => if n ≤ maxInt64 + 1 then some (-(n : Int)) else none)
    else
      (parseDigitsNat s).bind (fun n => if n ≤ maxInt64 then some (n : Int) else none)

/-- Models the Version struct of the semantic-version library used by
the code (coreos go-semver): int64 major/minor/patch plus free-form
pre-release and metadata strings. -/
structure Semver where
  Major : Int
  Minor : Int
  Patch : Int
  PreRelease : Str
  Metadata : Str
deriving DecidableEq

/-- Models semver.NewVersion / Version.Set from the library the code
calls: split off metadata at the first plus sign, then a pre-release at
the first hyphen, then require exactly three dot-separated components,
each a valid int64. -/
def newVersion (s : Str) : Option Semver :=
  let m := splitOff s '+'
  let p := splitOff m.1 '-'
  match splitN3 p.1 '.' with
  | [a, b, c] =>
    match parseInt64 a, parseInt64 b, parseInt64 c with
    | some ma, some mi, some pa => some ⟨ma, mi, pa, p.2, m.2⟩
    | _, _, _ => none
  | _ => none

/-- Decimal digits of a natural number, with structural fuel so that the
definition reduces in the kernel. -/
def natDigitsAux (fuel n : Nat) : Str :=
  match fuel with
  | 0 => []
  | fuel + 1 =>
    if n < 10 then [digitChar n] else natDigitsAux fuel (n / 10) ++ [digitChar (n % 10)]

/-- Decimal digit string of a natural number, most significant first. -/
def natDigits (n : Nat) : Str := natDigitsAux (n + 1) n

/-- Models the %d formatting of an int64 used by Version.String. -/
def intStr (n : Int) : Str :=
  if n < 0 then '-' :: natDigits (-n).toNat else natDigits n.toNat

/-- Models Version.String of the semantic-version library:
major.minor.patch, then -preRelease when non-empty, then +metadata when
non-empty. -/
def Semver.render (v : Semver) : Str :=
  intStr v.Major ++ '.' :: intStr v.Minor ++ '.' :: intStr v.Patch
    ++ (if v.PreRelease = [] then [] else '-' :: v.PreRelease)
    ++ (if v.Metadata = [] then [] else '+' :: v.Metadata)

theorem digitChar_mem (n : Nat) : digitChar n ∈ digitChars := by
  rcases n with _ | _ | _ | _ | _ | _ | _ | _ | _ | n <;> simp [digitChar, digitChars]

theorem digitChar_val {n : Nat} (h : n < 10) : (digitChar n).toNat - 48 = n := by
  rcases n with _ | _ | _ | _ | _ | _ | _ | _ | _ | _ | n <;> first | rfl | omega

theorem digitChars_not_special :
    ∀ c ∈ digitChars, c ≠ '.' ∧ c ≠ '-' ∧ c ≠ '+' ∧ c ≠ '@' ∧ c ≠ ':' := by decide

theorem digitsVal_append (l₁ l₂ : Str) (acc : Nat) :
    digitsVal (l₁ ++ l₂) acc = (digitsVal l₁ acc).bind (fun m => digitsVal l₂ m) := by
  induction l₁ generalizing acc with
  | nil => simp [digitsVal]
  | cons c rest ih =>
    by_cases h : c ∈ digitChars <;> simp [digitsVal, h, ih]

theorem natDigitsAux_digits {fuel n : Nat} (h : n < fuel) :
    ∀ c ∈ natDigitsAux fuel n, c ∈ digitChars := by
  induction fuel generalizing n with
  | zero => omega
  | succ fuel ih =>
    intro c hc
    unfold natDigitsAux at hc
    by_cases h10 : n < 10
    · rw [if_pos h10] at hc
      simp only [List.mem_singleton] at hc
      exact hc ▸ digitChar_mem n
    · rw [if_neg h10] at hc
      rcases List.mem_append.1 hc with hc | hc
      · exact ih (by omega) c hc
      · simp only [List.mem_singleton] at hc
        exact hc ▸ digitChar_mem (n % 10)

theorem natDigitsAux_ne_nil {fuel n : Nat} (h : n < fuel) : natDigitsAux fuel n ≠ [] := by
  rcases fuel with _ | fuel
  · omega
  · unfold natDigitsAux
    by_cases h10 : n < 10 <;> simp [h10]

theorem digitsVal_natDigitsAux {fuel n : Nat} (h : n < fuel) (acc : Nat) :
    digitsVal (natDigitsAux fuel n) acc =
      some (acc * 10 ^ (natDigitsAux fuel n).length + n) := by
  induction fuel generalizing n acc with
  | zero => omega
  | succ fuel ih =>
    unfold natDigitsAux
    by_cases h10 : n < 10
    · rw [if_pos h10]
      simp [digitsVal, digitChar_mem, digitChar_val h10]
    · rw [if_neg h10]
      rw [digitsVal_append, ih (show n / 10 < fuel by omega)]
      simp only [Option.some_bind, digitsVal, digitChar_mem, if_true,
        digitChar_val (Nat.mod_lt n (by omega)), List.length_append,
        List.length_singleton, Option.some.injEq]
      rw [pow_succ]
      have hmod : n / 10 * 10 + n % 10 = n := by omega
      calc (acc * 10 ^ (natDigitsAux fuel (n / 10)).length + n / 10) * 10 + n % 10
          = acc * 10 ^ (natDigitsAux fuel (n / 10)).length * 10 +
              (n / 10 * 10 + n % 10) := by ring
        _ = acc * (10 ^ (natDigitsAux fuel (n / 10)).length * 10) + n := by
              rw [hmod, Nat.mul_assoc]

theorem natDigits_digits (n : Nat) : ∀ c ∈ natDigits n, c ∈ digitChars :=
  natDigitsAux_digits (Nat.lt_succ_self n)

theorem natDigits_ne_nil (n : Nat) : natDigits n ≠ [] :=
  natDigitsAux_ne_nil (Nat.lt_succ_self n)

theorem parseDigitsNat_natDigits (n : Nat) : parseDigitsNat (natDigits n) = some n := by
  have h : digitsVal (natDigits n) 0 = some (0 * 10 ^ (natDigits n).length + n) :=
    digitsVal_natDigitsAux (Nat.lt_succ_self n) 0
  rw [Nat.zero_mul, Nat.zero_add] at h
  rcases hnil : natDigits n with _ | ⟨c, rest⟩
  · exact absurd hnil (natDigits_ne_nil n)
  · rw [hnil] at h
    simpa [parseDigitsNat] using h

theorem parseInt64_natDigits {n : Nat} (h : n ≤ maxInt64) :
    parseInt64 (natDigits n) = some (n : Int) := by
  rcases hnil : natDigits n with _ | ⟨c, rest⟩
  · exact absurd hnil (natDigits_ne_nil n)
  · have hmem : c ∈ digitChars := natDigits_digits n c (by rw [hnil]; exact List.mem_cons_self c rest)
    have hplus : c ≠ '+' := (digitChars_not_special c hmem).2.2.1
    have hminus : c ≠ '-' := (digitChars_not_special c hmem).2.1
    have hp : parseDigitsNat (c :: rest) = some n := hnil ▸ parseDigitsNat_natDigits n
    simp [parseInt64, hplus, hminus, hp, h]

theorem parseInt64_no_sign {s : Str} {m : Int} (hminus : '-' ∉ s) (hplus : '+' ∉ s)
    (h : parseInt64 s = some m) : 0 ≤ m ∧ m ≤ (maxInt64 : Int) := by
  rcases s with _ | ⟨c, rest⟩
  · simp [parseInt64] at h
  · have hc1 : c ≠ '+' := fun hh => hplus (hh ▸ List.mem_cons_self c rest)
    have hc2 : c ≠ '-' := fun hh => hminus (hh ▸ List.mem_cons_self c rest)
    simp only [parseInt64, if_neg hc1, if_neg hc2] at h
    rcases hp : parseDigitsNat (c :: rest) with _ | n
    · rw [hp] at h; simp at h
    · rw [hp] at h
      simp only [Option.some_bind] at h
      split at h
      · rcases h with ⟨⟩
        constructor
        · exact Int.natCast_nonneg n
        · exact_mod_cast (by assumption : n ≤ maxInt64)
      · simp at h

/-- Well-formedness facts true of every successfully parsed version:
the three numbers are in the non-negative int64 range, and the
pre-release text contains no plus sign. -/
def Semver.WF (v : Semver) : Prop :=
  0 ≤ v.Major ∧ v.Major ≤ (maxInt64 : Int) ∧ 0 ≤ v.Minor ∧ v.Minor ≤ (maxInt64 : Int) ∧
    0 ≤ v.Patch ∧ v.Patch ≤ (maxInt64 : Int) ∧ '+' ∉ v.PreRelease

theorem splitN3_eq_three {s : Str} {sep : Char} {a b c : Str}
    (h : splitN3 s sep = [a, b, c]) :
    a = (cut s sep).1 ∧ b = (cut (cut s sep).2.1 sep).1 ∧
      c = (cut (cut s sep).2.1 sep).2.1 := by
  unfold splitN3 at h
  dsimp only at h
  split_ifs at h <;> simp_all

theorem splitN3_append (d1 d2 d3 : Str) (sep : Char) (h1 : sep ∉ d1) (h2 : sep ∉ d2) :
    splitN3 (d1 ++ sep :: (d2 ++ sep :: d3)) sep = [d1, d2, d3] := by
  unfold splitN3
  rw [cut_append d1 (d2 ++ sep :: d3) sep h1]
  simp only
  rw [cut_append d2 d3 sep h2]
  simp

theorem newVersion_WF {s : Str} {v : Semver} (h : newVersion s = some v) : v.WF := by
  unfold newVersion at h
  dsimp only at h
  have hplus1 : '+' ∉ (splitOff s '+').1 := splitOff_fst_not_mem s '+'
  have hminus1 : '-' ∉ (splitOff (splitOff s '+').1 '-').1 :=
    splitOff_fst_not_mem (splitOff s '+').1 '-'
  have hplus2 : '+' ∉ (splitOff (splitOff s '+').1 '-').1 :=
    fun hc => hplus1 (splitOff_fst_subset hc)
  split at h
  case h_2 => exact absurd h (by simp)
  case h_1 a b c heq =>
    obtain ⟨ha, hb, hc⟩ := splitN3_eq_three heq
    split at h
    case h_2 => exact absurd h (by simp)
    case h_1 ma mi pa hma hmi hpa =>
      rcases h with ⟨⟩
      have hsub1 : ∀ x ∈ a, x ∈ (splitOff (splitOff s '+').1 '-').1 :=
        fun x hx => cut_fst_subset (ha ▸ hx)
      have hsub2 : ∀ x ∈ b, x ∈ (splitOff (splitOff s '+').1 '-').1 :=
        fun x hx => cut_snd_subset (cut_fst_subset (hb ▸ hx))
      have hsub3 : ∀ x ∈ c, x ∈ (splitOff (splitOff s '+').1 '-').1 :=
        fun x hx => cut_snd_subset (cut_snd_subset (hc ▸ hx))
      have r1 := parseInt64_no_sign (fun hx => hminus1 (hsub1 _ hx))
        (fun hx => hplus2 (hsub1 _ hx)) hma
      have r2 := parseInt64_no_sign (fun hx => hminus1 (hsub2 _ hx))
        (fun hx => hplus2 (hsub2 _ hx)) hmi
      have r3 := parseInt64_no_sign (fun hx => hminus1 (hsub3 _ hx))
        (fun hx => hplus2 (hsub3 _ hx)) hpa
      exact ⟨r1.1, r1.2, r2.1, r2.2, r3.1, r3.2,
        fun hx => hplus1 (splitOff_snd_subset hx)⟩

theorem splitOff_opt (A m : Str) (delim : Char) (hA : delim ∉ A) :
    splitOff (A ++ (if m = [] then [] else delim :: m)) delim = (A, m) := by
  by_cases hm : m = []
  · subst hm
    simpa using splitOff_of_not_mem A delim hA
  · rw [if_neg hm]
    exact splitOff_append A m delim hA

theorem not_mem_core {d1 d2 d3 : Str} {ch : Char}
    (h1 : ∀ c ∈ d1, c ∈ digitChars) (h2 : ∀ c ∈ d2, c ∈ digitChars)
    (h3 : ∀ c ∈ d3, c ∈ digitChars)
    (hch : ch ∉ digitChars) (hdot : ch ≠ '.') :
    ch ∉ d1 ++ '.' :: (d2 ++ '.' :: d3) := by
  intro hc
  simp only [List.mem_append, List.mem_cons] at hc
  rcases hc with hc | hc | hc | hc | hc
  · exact hch (h1 _ hc)
  · exact hdot hc
  · exact hch (h2 _ hc)
  · exact hdot hc
  · exact hch (h3 _ hc)

theorem newVersion_render {v : Semver} (h : v.WF) : newVersion v.render = some v := by
  obtain ⟨Ma, Mi, Pa, Pre, Meta⟩ := v
  obtain ⟨w1, w2, w3, w4, w5, w6, w7⟩ := h
  dsimp only at w1 w2 w3 w4 w5 w6 w7
  have hd1 : intStr Ma = natDigits Ma.toNat := if_neg (not_lt.2 w1)
  have hd2 : intStr Mi = natDigits Mi.toNat := if_neg (not_lt.2 w3)
  have hd3 : intStr Pa = natDigits Pa.toNat := if_neg (not_lt.2 w5)
  have hg1 := natDigits_digits Ma.toNat
  have hg2 := natDigits_digits Mi.toNat
  have hg3 := natDigits_digits Pa.toNat
  have hcore : ('+' : Char) ∉ natDigits Ma.toNat ++ '.' ::
      (natDigits Mi.toNat ++ '.' :: natDigits Pa.toNat) :=
    not_mem_core hg1 hg2 hg3 (by decide) (by decide)
  have hcoreM : ('-' : Char) ∉ natDigits Ma.toNat ++ '.' ::
      (natDigits Mi.toNat ++ '.' :: natDigits Pa.toNat) :=
    not_mem_core hg1 hg2 hg3 (by decide) (by decide)
  have hpre : ('+' : Char) ∉ (natDigits Ma.toNat ++ '.' ::
      (natDigits Mi.toNat ++ '.' :: natDigits Pa.toNat)) ++
      (if Pre = [] then [] else '-' :: Pre) := by
    intro hc
    rcases List.mem_append.1 hc with hc | hc
    · exact hcore hc
    · rcases hPre : Pre with _ | ⟨p, ps⟩ <;> rw [hPre] at hc
      · simp at hc
      · rw [if_neg (by simp)] at hc
        rcases List.mem_cons.1 hc with hc | hc
        · exact absurd hc.symm (by decide)
        · exact w7 (hPre ▸ hc)
  have hre : Semver.render ⟨Ma, Mi, Pa, Pre, Meta⟩ =
      ((natDigits Ma.toNat ++ '.' :: (natDigits Mi.toNat ++ '.' :: natDigits Pa.toNat)) ++
        (if Pre = [] then [] else '-' :: Pre)) ++
        (if Meta = [] then [] else '+' :: Meta) := by
    dsimp only [Semver.render]
    rw [hd1, hd2, hd3]
    simp [List.append_assoc]
  rw [hre]
  unfold newVersion
  dsimp only
  rw [splitOff_opt _ Meta '+' hpre]
  dsimp only
  rw [splitOff_opt _ Pre '-' hcoreM]
  dsimp only
  rw [splitN3_append _ _ _ '.' (fun hc => (digitChars_not_special _ (hg1 _ hc)).1 rfl)
    (fun hc => (digitChars_not_special _ (hg2 _ hc)).1 rfl)]
  dsimp only
  have e1 : parseInt64 (natDigits Ma.toNat) = some Ma := by
    rw [parseInt64_natDigits (by omega), Int.toNat_of_nonneg w1]
  have e2 : parseInt64 (natDigits Mi.toNat) = some Mi := by
    rw [parseInt64_natDigits (by omega), Int.toNat_of_nonneg w3]
  have e3 : parseInt64 (natDigits Pa.toNat) = some Pa := by
    rw [parseInt64_natDigits (by omega), Int.toNat_of_nonneg w5]
  rw [e1, e2, e3]

/-- The error values ParsePackageName can produce: the semantic-version
parse error forwarded by ParsePackageName, and the two messages of
PackageName.Validate ("missing package namespace", "missing package
name"). Error text is modelled by these constructors. -/
inductive PNError where
  | invalidVersion
  | missingNamespace
  | missingName
deriving DecidableEq

/-- Models the PackageName struct of src/wit/resolve.go: namespace,
kebab-name, and optional semantic version (a nilable pointer in Go,
an Option here). -/
structure PackageName where
  Namespace : Str
  Name : Str
  Version : Option Semver
deriving DecidableEq

/-- Models PackageName.Validate: an error when the namespace is empty,
else an error when the name is empty, else nil. -/
def PackageName.Validate (pn : PackageName) : Option PNError :=
  if pn.Namespace = [] then some PNError.missingNamespace
  else if pn.Name = [] then some PNError.missingName
  else none

/-- Models ParsePackageName: cut the input at the first at-sign into a
name part and an optional version suffix, cut the name part at the first
colon into namespace and name, parse the version suffix when present
(failing the whole parse when it is not a valid semantic version), and
finish with Validate. As in Go, the pair carries the partially filled
PackageName even when an error is returned. -/
def ParsePackageName (s : Str) : PackageName × Option PNError :=
  let cv := cut s '@'
  let cn := cut cv.1 ':'
  if cv.2.2 then
    match newVersion cv.2.1 with
    | none => (⟨cn.1, cn.2.1, none⟩, some PNError.invalidVersion)
    | some v =>
      let pn : PackageName := ⟨cn.1, cn.2.1, some v⟩
      (pn, pn.Validate)
  else
    let pn : PackageName := ⟨cn.1, cn.2.1, none⟩
    (pn, pn.Validate)

/-- Models PackageName.String: namespace, colon, name, and when a
version is present an at-sign followed by the rendered version. -/
def PackageName.toStr (pn : PackageName) : Str :=
  match pn.Version with
  | none => pn.Namespace ++ ':' :: pn.Name
  | some v => pn.Namespace ++ ':' :: pn.Name ++ '@' :: v.render

theorem Validate_eq_none_iff (pn : PackageName) :
    pn.Validate = none ↔ pn.Namespace ≠ [] ∧ pn.Name ≠ [] := by
  unfold PackageName.Validate
  split_ifs with h1 h2 <;> simp_all

/-- Shape facts true of the PackageName returned by every successful
parse: both halves are non-empty, the namespace contains no colon,
neither half contains an at-sign, and the version is well-formed. -/
theorem parse_ok_shape {s : Str} {pn : PackageName}
    (h : ParsePackageName s = (pn, none)) :
    pn.Namespace ≠ [] ∧ pn.Name ≠ [] ∧ ':' ∉ pn.Namespace ∧ '@' ∉ pn.Namespace ∧
      '@' ∉ pn.Name ∧ ∀ v, pn.Version = some v → v.WF := by
  unfold ParsePackageName at h
  dsimp only at h
  have hat : '@' ∉ (cut s '@').1 := cut_sep_not_mem_fst s '@'
  have hcol : ':' ∉ (cut (cut s '@').1 ':').1 := cut_sep_not_mem_fst (cut s '@').1 ':'
  have hns_at : '@' ∉ (cut (cut s '@').1 ':').1 := fun hc => hat (cut_fst_subset hc)
  have hnm_at : '@' ∉ (cut (cut s '@').1 ':').2.1 := fun hc => hat (cut_snd_subset hc)
  split at h
  · split at h
    · simp at h
    · rw [Prod.mk.injEq] at h
      obtain ⟨h1, h2⟩ := h
      subst h1
      have := (Validate_eq_none_iff _).1 h2
      refine ⟨this.1, this.2, hcol, hns_at, hnm_at, ?_⟩
      intro v hv
      rcases hv with ⟨⟩
      exact newVersion_WF (by assumption)
  · rw [Prod.mk.injEq] at h
    obtain ⟨h1, h2⟩ := h
    subst h1
    have := (Validate_eq_none_iff _).1 h2
    exact ⟨this.1, this.2, hcol, hns_at, hnm_at, fun v hv => by rcases hv with ⟨⟩⟩

/-- Parsing the canonical string of any shape-valid PackageName
succeeds and returns it unchanged. -/
theorem parse_toStr {pn : PackageName}
    (hns : pn.Namespace ≠ []) (hnm : pn.Name ≠ [])
    (hcol : ':' ∉ pn.Namespace) (hat1 : '@' ∉ pn.Namespace) (hat2 : '@' ∉ pn.Name)
    (hwf : ∀ v, pn.Version = some v → v.WF) :
    ParsePackageName pn.toStr = (pn, none) := by
  obtain ⟨ns, nm, ver⟩ := pn
  dsimp only at hns hnm hcol hat1 hat2 hwf
  have hboth : '@' ∉ ns ++ ':' :: nm := by
    intro hc
    rcases List.mem_append.1 hc with hc | hc
    · exact hat1 hc
    · rcases List.mem_cons.1 hc with hc | hc
      · exact absurd hc (by decide)
      · exact hat2 hc
  rcases ver with _ | v
  · have hstr : PackageName.toStr ⟨ns, nm, none⟩ = ns ++ ':' :: nm := rfl
    rw [hstr]
    unfold ParsePackageName
    dsimp only
    rw [cut_of_not_mem _ '@' hboth]
    dsimp only
    rw [cut_append ns nm ':' hcol]
    simp [PackageName.Validate, hns, hnm]
  · have hwfv : v.WF := hwf v rfl
    have hstr : PackageName.toStr ⟨ns, nm, some v⟩ =
        (ns ++ ':' :: nm) ++ '@' :: v.render := by
      dsimp only [PackageName.toStr]
      try simp [List.append_assoc]
    rw [hstr]
    unfold ParsePackageName
    dsimp only
    rw [cut_append _ _ '@' hboth]
    dsimp only
    rw [newVersion_render hwfv]
    rw [cut_append ns nm ':' hcol]
    simp [PackageName.Validate, hns, hnm]

/-- The canonical package-name string made of a namespace, a name and an
optional version string. -/
def canonicalStr (ns nm : Str) (v : Option Str) : Str :=
  ns ++ ':' :: nm ++ (match v with | none => [] | some vs => '@' :: vs)

/-- Canonical-form side conditions, following the words of the spec:
namespace and name are non-empty, the namespace holds no colon, neither
half holds an at-sign, and the version string, when present, is a valid
semantic version written canonically (it is the rendering of its own
parse). -/
def CanonicalPN (ns nm : Str) (v : Option Str) : Prop :=
  ns ≠ [] ∧ nm ≠ [] ∧ ':' ∉ ns ∧ '@' ∉ ns ∧ '@' ∉ nm ∧
    (match v with
     | none => True
     | some vs => ∃ w, newVersion vs = some w ∧ w.render = vs)

/-- The parse order the claim and spec describe, stated as a definition
for comparison with ParsePackageName: split the input on the first colon
into namespace and remainder, then split the remainder on the first
at-sign into name and optional version suffix. -/
def specOrderParse (s : Str) : PackageName × Option PNError :=
  let cn := cut s ':'
  let cv := cut cn.2.1 '@'
  if cv.2.2 then
    match newVersion cv.2.1 with
    | none => (⟨cn.1, cv.1, none⟩, some PNError.invalidVersion)
    | some v =>
      let pn : PackageName := ⟨cn.1, cv.1, some v⟩
      (pn, pn.Validate)
  else
    let pn : PackageName := ⟨cn.1, cv.1, none⟩
    (pn, pn.Validate)

/-- The thirteen primitive WIT types of src/wit/resolve.go (Bool, S8,
U8, S16, U16, S32, U32, S64, U64, Float32, Float64, Char, String). -/
inductive PrimT where
  | bool
  | s8
  | u8
  | s16
  | u16
  | s32
  | u32
  | s64
  | u64
  | float32
  | float64
  | char
  | string
deriving DecidableEq

/-- Models the TypeName method of the generic primitive carrier, whose
switch maps each Go carrier type to its canonical WIT name. -/
def PrimT.typeName : PrimT → Str
  | .bool => ("bool".toList)
  | .s8 => ("s8".toList)
  | .u8 => ("u8".toList)
  | .s16 => ("s16".toList)
  | .u16 => ("u16".toList)
  | .s32 => ("s32".toList)
  | .u32 => ("u32".toList)
  | .s64 => ("s64".toList)
  | .u64 => ("u64".toList)
  | .float32 => ("float32".toList)
  | .float64 => ("float64".toList)
  | .char => ("char".toList)
  | .string => ("string".toList)

/-- The canonical primitive names, in the order of the ParseType switch. -/
def primNames : List Str :=
  [("bool".toList), ("s8".toList), ("u8".toList), ("s16".toList), ("u16".toList),
    ("s32".toList), ("u32".toList), ("s64".toList), ("u64".toList),
    ("float32".toList), ("float64".toList), ("char".toList), ("string".toList)]

/-- Go %q quoting of a token, modelled as plain surrounding double
quotes; the escaping %q applies to special characters is elided, which
is exact for the quote-free tokens at issue here. -/
def goQuote (s : Str) : Str := '"' :: s ++ ['"']

/-- Models ParseType of src/wit/resolve.go: a thirteen-way switch over
the canonical primitive names; any other string is the error
"unknown type %q" naming the token. The Go function returns the Type
interface; the values it returns are exactly the thirteen primitive
carriers, modelled by PrimT. -/
def ParseType (s : Str) : Except Str PrimT :=
  if s = ("bool".toList) then .ok .bool
  else if s = ("s8".toList) then .ok .s8
  else if s = ("u8".toList) then .ok .u8
  else if s = ("s16".toList) then .ok .s16
  else if s = ("u16".toList) then .ok .u16
  else if s = ("s32".toList) then .ok .s32
  else if s = ("u32".toList) then .ok .u32
  else if s = ("s64".toList) then .ok .s64
  else if s = ("u64".toList) then .ok .u64
  else if s = ("float32".toList) then .ok .float32
  else if s = ("float64".toList) then .ok .float64
  else if s = ("char".toList) then .ok .char
  else if s = ("string".toList) then .ok .string
  else .error (("unknown type ".toList) ++ goQuote s)

/-- A type reference: a primitive, or a type definition addressed by its
index in the resolved TypeDefs collection. The Go structs hold direct
pointers; the flat index form matches the serialized input the resolver
consumes and the back-link design note of the spec. -/
inductive TypeRef where
  | prim (p : PrimT)
  | ref (idx : Nat)
deriving DecidableEq

/-- The owner of a type definition: a world or an interface, addressed
by index, or none. Models the TypeOwner interface field. -/
inductive OwnerRef where
  | world (idx : Nat)
  | iface (idx : Nat)
deriving DecidableEq

/-- The closed TypeDefKind variant set of src/wit/resolve.go: Record,
Resource, OwnedHandle, BorrowedHandle, Flags, Tuple, Variant, Enum,
Option, Result, List, Future, Stream, or a direct type alias. Handle
targets are indices into the TypeDefs collection. -/
inductive TypeDefKind where
  | record (fields : List (Str × TypeRef))
  | resource
  | ownedHandle (target : Nat)
  | borrowedHandle (target : Nat)
  | flags (names : List Str)
  | tuple (types : List TypeRef)
  | variant (cases : List (Str × Option TypeRef))
  | enum (cases : List Str)
  | option (t : TypeRef)
  | result (ok err : Option TypeRef)
  | list (t : TypeRef)
  | future (t : Option TypeRef)
  | stream (elem fin : Option TypeRef)
  | alias (t : TypeRef)
deriving DecidableEq

/-- Models the TypeDef struct of src/wit/resolve.go: an optional name,
a kind, and an optional owner. Docs carry no semantics and are elided. -/
structure TypeDef where
  Name : Option Str
  Kind : TypeDefKind
  Owner : Option OwnerRef
deriving DecidableEq

/-- Models TypeDef.TypeName: the dereferenced name when present, the
empty string otherwise. -/
def TypeDef.TypeName (t : TypeDef) : Str :=
  match t.Name with
  | some n => n
  | none => []

/-- Resolution errors for the type-definitions collection. -/
inductive ResolveError where
  | indexOutOfRange (td target : Nat)
  | invalidHandleTarget (td target : Nat)
deriving DecidableEq

/-- Modelled from the spec: the resolution engine (the DecodeJSON
decoder) is not under src/; per spec section 4.2 steps 2 and 4, a handle
whose target index is out of bounds is an IndexOutOfRange error, and a
handle whose target is not a Resource-kind definition is an
InvalidHandleTarget error. -/
def checkHandle (tds : List TypeDef) (i target : Nat) : Option ResolveError :=
  match tds[target]? with
  | none => some (ResolveError.indexOutOfRange i target)
  | some tgt =>
    if tgt.Kind = TypeDefKind.resource then none
    else some (ResolveError.invalidHandleTarget i target)

/-- Modelled from the spec: the per-definition validation step of the
resolution engine, which for Handle kinds checks the target. -/
def checkTypeDef (tds : List TypeDef) (i : Nat) (td : TypeDef) : Option ResolveError :=
  match td.Kind with
  | TypeDefKind.ownedHandle t => checkHandle tds i t
  | TypeDefKind.borrowedHandle t => checkHandle tds i t
  | _ => none

/-- Modelled from the spec: resolution of the type-definitions
collection is all-or-nothing; the first validation error fails the whole
resolution and no graph is produced, otherwise the fully linked
collection is the graph. -/
def resolveTypeDefs (tds : List TypeDef) : Except ResolveError (List TypeDef) :=
  match tds.enum.findSome? (fun p => checkTypeDef tds p.1 p.2) with
  | some e => Except.error e
  | none => Except.ok tds

/-- The observable outcomes of the input-validation and tool-location
phase of loadWIT (src/wit/load.go): the both-inputs conflict error, the
LookPath failure, or reaching the subprocess invocation with the
assembled argument list and the chosen standard input. -/
inductive LoadOutcome where
  | conflictError
  | toolNotFound
  | runTool (args : List Str) (stdinFromReader : Bool)
deriving DecidableEq

/-- The fixed wasm-tools arguments of loadWIT. -/
def witSubcommand : List Str :=
  [("component".toList), ("wit".toList), ("-j".toList), ("--all-features".toList)]

/-- Models loadWIT of src/wit/load.go as a function of the facts that
decide its control flow: the path, whether a reader was supplied, and
whether wasm-tools is on the search path. A non-empty path together
with a reader is the conflict error, checked before the tool lookup;
then a missing tool is LookPath's error; otherwise the subprocess runs
with the path appended to the fixed arguments when non-empty, reading
the reader otherwise. -/
def loadWIT (path : Str) (hasReader : Bool) (toolOnPath : Bool) : LoadOutcome :=
  if path ≠ [] ∧ hasReader then LoadOutcome.conflictError
  else if toolOnPath = false then LoadOutcome.toolNotFound
  else LoadOutcome.runTool (witSubcommand ++ (if path ≠ [] then [path] else [])) hasReader

/-- Models LoadWIT: loadWIT with the given path and a nil reader. -/
def LoadWIT (path : Str) (toolOnPath : Bool) : LoadOutcome :=
  loadWIT path false toolOnPath

/-- Models DecodeWIT: loadWIT with an empty path and the given reader. -/
def DecodeWIT (toolOnPath : Bool) : LoadOutcome :=
  loadWIT [] true toolOnPath

theorem Validate_isSome_iff (pn : PackageName) :
    pn.Validate.isSome = true ↔ pn.Namespace = [] ∨ pn.Name = [] := by
  unfold PackageName.Validate
  split_ifs <;> simp_all

/-- C1: PackageName round-trip: parsing the String form of any
successfully parsed PackageName succeeds and returns an equal
PackageName, and every string already in canonical form
(namespace, colon, name, optionally at-sign and a canonically written
semantic version) parses successfully and stringifies back to itself.
The witness instantiates this at wasi:clocks@1.0.0 (spec Scenario B),
which parses with version 1.0.0 and stringifies back identically. -/
theorem C1_package_name_round_trip :
    (∀ s pn, ParsePackageName s = (pn, none) → ParsePackageName pn.toStr = (pn, none)) ∧
    (∀ ns nm v, CanonicalPN ns nm v →
      (ParsePackageName (canonicalStr ns nm v)).2 = none ∧
      ((ParsePackageName (canonicalStr ns nm v)).1).toStr = canonicalStr ns nm v) := by
  constructor
  · intro s pn h
    obtain ⟨h1, h2, h3, h4, h5, h6⟩ := parse_ok_shape h
    exact parse_toStr h1 h2 h3 h4 h5 h6
  · intro ns nm v hc
    rcases v with _ | vs
    · obtain ⟨h1, h2, h3, h4, h5, _⟩ := hc
      have heq : canonicalStr ns nm none = PackageName.toStr ⟨ns, nm, none⟩ := by
        simp [canonicalStr, PackageName.toStr]
      rw [heq, parse_toStr h1 h2 h3 h4 h5 (fun v hv => by rcases hv with ⟨⟩)]
      exact ⟨rfl, rfl⟩
    · obtain ⟨h1, h2, h3, h4, h5, h6⟩ := hc
      obtain ⟨w, hw1, hw2⟩ := h6
      have hwf := newVersion_WF hw1
      have heq : canonicalStr ns nm (some vs) = PackageName.toStr ⟨ns, nm, some w⟩ := by
        dsimp only [canonicalStr, PackageName.toStr]
        rw [hw2]
      rw [heq, parse_toStr h1 h2 h3 h4 h5
        (fun u hu => by rcases hu with ⟨⟩; exact hwf)]
      exact ⟨rfl, rfl⟩

/-- Witness for C1 at wasi:clocks@1.0.0: both halves applied at the
concrete input of spec Scenario B. -/
theorem C1_witness :
    ParsePackageName
        (PackageName.toStr ⟨("wasi".toList), ("clocks".toList), some ⟨1, 0, 0, [], []⟩⟩) =
      (⟨("wasi".toList), ("clocks".toList), some ⟨1, 0, 0, [], []⟩⟩, none) ∧
    (ParsePackageName
        (canonicalStr ("wasi".toList) ("clocks".toList) (some ("1.0.0".toList)))).2 = none ∧
    ((ParsePackageName
        (canonicalStr ("wasi".toList) ("clocks".toList) (some ("1.0.0".toList)))).1).toStr =
      canonicalStr ("wasi".toList) ("clocks".toList) (some ("1.0.0".toList)) := by
  refine ⟨C1_package_name_round_trip.1 (("wasi:clocks@1.0.0").toList) _ (by decide), ?_, ?_⟩
  · exact (C1_package_name_round_trip.2 (("wasi").toList) (("clocks").toList)
      (some (("1.0.0").toList))
      ⟨by decide, by decide, by decide, by decide, by decide,
        ⟨⟨1, 0, 0, [], []⟩, by decide, by decide⟩⟩).1
  · exact (C1_package_name_round_trip.2 (("wasi").toList) (("clocks").toList)
      (some (("1.0.0").toList))
      ⟨by decide, by decide, by decide, by decide, by decide,
        ⟨⟨1, 0, 0, [], []⟩, by decide, by decide⟩⟩).2

/-- C5 counterexample: on the input a@b:c the code rejects (the text
after the first at-sign, b:c, is not a valid version), while the
colon-first split order the claim describes accepts it with namespace
a@b and name c, so ParsePackageName does not split on the first colon
first. -/
theorem C5_counterexample :
    (ParsePackageName (("a@b:c").toList)).2.isSome = true ∧
    (specOrderParse (("a@b:c").toList)).2 = none ∧
    ParsePackageName (("a@b:c").toList) ≠ specOrderParse (("a@b:c").toList) := by decide

/-- C5 as amended: ParsePackageName splits on the first at-sign for the
optional version suffix, then splits the remaining prefix on the first
colon into namespace and name; a version suffix that is present but
not a valid semantic version fails the whole parse. -/
theorem C5_split_order :
    (∀ l1 l2 : Str, '@' ∉ l1 →
      (ParsePackageName (l1 ++ '@' :: l2)).1.Namespace = (cut l1 ':').1 ∧
      (ParsePackageName (l1 ++ '@' :: l2)).1.Name = (cut l1 ':').2.1 ∧
      (newVersion l2 = none →
        (ParsePackageName (l1 ++ '@' :: l2)).2 = some PNError.invalidVersion)) ∧
    (∀ s : Str, '@' ∉ s →
      (ParsePackageName s).1.Namespace = (cut s ':').1 ∧
      (ParsePackageName s).1.Name = (cut s ':').2.1 ∧
      (ParsePackageName s).1.Version = none) := by
  constructor
  · intro l1 l2 h
    unfold ParsePackageName
    dsimp only
    rw [cut_append l1 l2 '@' h]
    dsimp only
    rcases hnv : newVersion l2 with _ | w <;> dsimp only
    · exact ⟨rfl, rfl, fun _ => rfl⟩
    · exact ⟨rfl, rfl, fun hc => nomatch hc⟩
  · intro s h
    unfold ParsePackageName
    dsimp only
    rw [cut_of_not_mem s '@' h]
    dsimp only
    exact ⟨rfl, rfl, rfl⟩

/-- Witness for C5 at the concrete input a:b@x: the at-sign is cut
first, the prefix a:b is cut at the colon, and the suffix x fails the
version parse. -/
theorem C5_witness :
    (ParsePackageName (("a:b".toList) ++ '@' :: ("x".toList))).1.Namespace =
      (cut ("a:b".toList) ':').1 ∧
    (ParsePackageName (("a:b".toList) ++ '@' :: ("x".toList))).2 =
      some PNError.invalidVersion :=
  ⟨(C5_split_order.1 (("a:b").toList) (("x").toList) (by decide)).1,
    (C5_split_order.1 (("a:b").toList) (("x").toList) (by decide)).2.2 (by decide)⟩

/-- C6 counterexample: the input abc contains no colon, yet the
PackageName yielded by ParsePackageName has the non-empty namespace
abc; the field left empty is the name, not the namespace. -/
theorem C6_counterexample :
    (':' ∉ (("abc").toList)) ∧
    (ParsePackageName (("abc").toList)).1.Namespace ≠ [] ∧
    (ParsePackageName (("abc").toList)).2.isSome = true := by decide

/-- C6 as amended: for every input string containing no colon,
ParsePackageName yields a PackageName with an empty Name and rejects
the input with an error. -/
theorem C6_no_colon (s : Str) (h : ':' ∉ s) :
    (ParsePackageName s).1.Name = [] ∧ (ParsePackageName s).2.isSome = true := by
  unfold ParsePackageName
  dsimp only
  have hname : ':' ∉ (cut s '@').1 := fun hc => h (cut_fst_subset hc)
  rw [cut_of_not_mem _ ':' hname]
  dsimp only
  split
  · rcases hnv : newVersion (cut s '@').2.1 with _ | w <;> dsimp only
    · exact ⟨rfl, rfl⟩
    · refine ⟨rfl, ?_⟩
      rw [Validate_isSome_iff]
      exact Or.inr rfl
  · refine ⟨rfl, ?_⟩
    rw [Validate_isSome_iff]
    exact Or.inr rfl

/-- Witness for C6 at the concrete input abc. -/
theorem C6_witness :
    (ParsePackageName (("abc").toList)).1.Name = [] ∧
    (ParsePackageName (("abc").toList)).2.isSome = true :=
  C6_no_colon (("abc").toList) (by decide)

/-- C7: ParsePackageName returns an error exactly when the parsed
namespace is empty, the parsed name is empty, or a version suffix after
the at-sign fails to parse as a semantic version; in particular
:clocks is rejected with the missing-namespace error (spec Scenario C). -/
theorem C7_parse_error_iff :
    (∀ s : Str, (ParsePackageName s).2.isSome = true ↔
      ((ParsePackageName s).1.Namespace = [] ∨ (ParsePackageName s).1.Name = [] ∨
        ((cut s '@').2.2 = true ∧ newVersion (cut s '@').2.1 = none))) ∧
    (ParsePackageName ((":clocks").toList)).2 = some PNError.missingNamespace := by
  constructor
  · intro s
    unfold ParsePackageName
    dsimp only
    split
    · rcases hnv : newVersion (cut s '@').2.1 with _ | w <;> dsimp only
      · simp_all
      · rw [Validate_isSome_iff]
        simp_all
    · rw [Validate_isSome_iff]
      simp_all
  · decide

/-- C8: PackageName.Validate returns nil exactly when Namespace and
Name are both non-empty; nothing else is checked, so a Name containing
further colons is reported valid. -/
theorem C8_validate_iff :
    (∀ pn : PackageName, pn.Validate = none ↔ pn.Namespace ≠ [] ∧ pn.Name ≠ []) ∧
    PackageName.Validate ⟨("a".toList), ("b:c".toList), none⟩ = none :=
  ⟨Validate_eq_none_iff, by decide⟩

/-- C3: ParseType succeeds exactly on the thirteen canonical primitive
names; on success the returned type's TypeName equals the input, and on
any other input the error message names the unrecognized token. -/
theorem C3_parse_type (s : Str) :
    ((∃ t, ParseType s = Except.ok t) ↔ s ∈ primNames) ∧
    (∀ t, ParseType s = Except.ok t → t.typeName = s) ∧
    (∀ msg, ParseType s = Except.error msg →
      msg = ("unknown type ".toList) ++ goQuote s) := by
  by_cases hmem : s ∈ primNames
  · simp only [primNames, List.mem_cons, List.not_mem_nil, or_false] at hmem
    rcases hmem with rfl | rfl | rfl | rfl | rfl | rfl | rfl | rfl | rfl | rfl | rfl | rfl | rfl <;>
      exact ⟨⟨fun _ => by decide, fun _ => ⟨_, rfl⟩⟩,
        fun t ht => by cases ht; rfl, fun msg hm => nomatch hm⟩
  · have hne : ∀ nm ∈ primNames, ¬(s = nm) := fun nm hnm hh => hmem (hh ▸ hnm)
    have he : ParseType s = Except.error (("unknown type ".toList) ++ goQuote s) := by
      unfold ParseType
      rw [if_neg (hne _ (by decide)), if_neg (hne _ (by decide)),
        if_neg (hne _ (by decide)), if_neg (hne _ (by decide)),
        if_neg (hne _ (by decide)), if_neg (hne _ (by decide)),
        if_neg (hne _ (by decide)), if_neg (hne _ (by decide)),
        if_neg (hne _ (by decide)), if_neg (hne _ (by decide)),
        if_neg (hne _ (by decide)), if_neg (hne _ (by decide)),
        if_neg (hne _ (by decide))]
    refine ⟨⟨fun ht => ?_, fun hm => absurd hm hmem⟩, fun t ht => ?_, fun msg hm => ?_⟩
    · obtain ⟨t, ht⟩ := ht
      rw [he] at ht
      exact nomatch ht
    · rw [he] at ht
      exact nomatch ht
    · rw [he] at hm
      cases hm
      rfl

/-- Witness for C3 at the concrete input bool: it is accepted, its
TypeName round-trips, and it is one of the thirteen names. -/
theorem C3_witness :
    PrimT.typeName PrimT.bool = ("bool".toList) ∧ (("bool".toList) ∈ primNames) :=
  ⟨(C3_parse_type (("bool").toList)).2.1 PrimT.bool rfl,
    (C3_parse_type (("bool").toList)).1.1 ⟨PrimT.bool, rfl⟩⟩

/-- C10: TypeDef.TypeName returns the dereferenced name when Name is
present and the empty string when Name is absent; it is total, so an
anonymous TypeDef never fails. -/
theorem C10_typename (t : TypeDef) :
    (∀ n, t.Name = some n → t.TypeName = n) ∧ (t.Name = none → t.TypeName = []) := by
  obtain ⟨nm, k, ow⟩ := t
  constructor
  · intro n hn
    dsimp only at hn
    subst hn
    rfl
  · intro hn
    dsimp only at hn
    subst hn
    rfl

/-- Witness for C10 at a named and an anonymous TypeDef. -/
theorem C10_witness :
    TypeDef.TypeName ⟨some (("x").toList), TypeDefKind.resource, none⟩ = (("x").toList) ∧
    TypeDef.TypeName ⟨none, TypeDefKind.resource, none⟩ = [] :=
  ⟨(C10_typename ⟨some (("x").toList), TypeDefKind.resource, none⟩).1 _ rfl,
    (C10_typename ⟨none, TypeDefKind.resource, none⟩).2 rfl⟩

theorem mem_enum_of_getElem? {l : List TypeDef} {i : Nat} {a : TypeDef}
    (h : l[i]? = some a) : (i, a) ∈ l.enum :=
  List.mk_mem_enum_iff_getElem?.2 h

/-- C2: in every successfully resolved type-definitions collection,
every owned and borrewed handle references a Resource-kind definition;
a handle whose target resolves to a non-Resource kind makes resolution
return a validation error value (total, so no panic) and no collection
is produced. -/
theorem C2_handle_invariant :
    (∀ tds g : List TypeDef, resolveTypeDefs tds = Except.ok g →
      ∀ i t : Nat, ∀ td : TypeDef, g[i]? = some td →
        (td.Kind = TypeDefKind.ownedHandle t ∨ td.Kind = TypeDefKind.borrowedHandle t) →
        ∃ tgt, g[t]? = some tgt ∧ tgt.Kind = TypeDefKind.resource) ∧
    (∀ tds : List TypeDef, ∀ i t : Nat, ∀ td tgt : TypeDef, tds[i]? = some td →
      (td.Kind = TypeDefKind.ownedHandle t ∨ td.Kind = TypeDefKind.borrowedHandle t) →
      tds[t]? = some tgt → tgt.Kind ≠ TypeDefKind.resource →
      ∃ e, resolveTypeDefs tds = Except.error e) := by
  constructor
  · intro tds g hok i t td hget hkind
    unfold resolveTypeDefs at hok
    rcases hfs : tds.enum.findSome? (fun p => checkTypeDef tds p.1 p.2) with _ | e
    · rw [hfs] at hok
      cases hok
      have hchk : checkTypeDef tds i td = none :=
        List.findSome?_eq_none_iff.1 hfs (i, td) (mem_enum_of_getElem? hget)
      have hh : checkHandle tds i t = none := by
        rcases hkind with hk | hk <;> (unfold checkTypeDef at hchk; rw [hk] at hchk) <;>
          exact hchk
      unfold checkHandle at hh
      rcases hT : tds[t]? with _ | tgt
      · rw [hT] at hh
        dsimp only at hh
        exact nomatch hh
      · rw [hT] at hh
        dsimp only at hh
        split at hh
        · exact ⟨tgt, rfl, by assumption⟩
        · exact nomatch hh
    · rw [hfs] at hok
      cases hok
  · intro tds i t td tgt hget hkind hT hres
    have hne : checkTypeDef tds i td ≠ none := by
      rcases hkind with hk | hk <;> (unfold checkTypeDef; rw [hk]; dsimp only) <;>
        (unfold checkHandle; rw [hT]; dsimp only; simp [hres])
    rcases hfs : tds.enum.findSome? (fun p => checkTypeDef tds p.1 p.2) with _ | e
    · exact absurd (List.findSome?_eq_none_iff.1 hfs (i, td) (mem_enum_of_getElem? hget)) hne
    · exact ⟨e, by unfold resolveTypeDefs; rw [hfs]⟩

/-- A Resource-kind definition, an owned handle to index 0, and a
Record-kind definition, for concrete resolution runs. -/
def tdResource : TypeDef := ⟨none, TypeDefKind.resource, none⟩

/-- An owned handle targeting index 0. -/
def tdOwned : TypeDef := ⟨none, TypeDefKind.ownedHandle 0, none⟩

/-- A Record-kind definition with no fields. -/
def tdRecord : TypeDef := ⟨none, TypeDefKind.record [], none⟩

/-- Witness for C2: a two-element collection whose handle targets a
Resource resolves and satisfies the invariant at the handle; replacing
the Resource by a Record makes resolution fail (spec Scenario E). -/
theorem C2_witness :
    (∃ tgt, ([tdResource, tdOwned] : List TypeDef)[0]? = some tgt ∧
      tgt.Kind = TypeDefKind.resource) ∧
    (∃ e, resolveTypeDefs [tdRecord, tdOwned] = Except.error e) :=
  ⟨C2_handle_invariant.1 [tdResource, tdOwned] [tdResource, tdOwned] rfl 1 0 tdOwned rfl
      (Or.inl rfl),
    C2_handle_invariant.2 [tdRecord, tdOwned] 1 0 tdOwned tdRecord rfl (Or.inl rfl) rfl
      (by decide)⟩

/-- C4 counterexample: with neither a path nor a reader supplied,
loadWIT does not produce the input-conflict error; it proceeds to the
tool lookup (failing with the lookup error when the tool is absent). -/
theorem C4_counterexample :
    loadWIT [] false true ≠ LoadOutcome.conflictError ∧
    loadWIT [] false false = LoadOutcome.toolNotFound := by decide

/-- C4 as amended: loadWIT fails with the input-conflict error exactly
when both a source path and a reader are supplied, and in that case the
outcome is the conflict error whether or not the tool can be located,
so the error precedes locating or invoking any subprocess; when
neither input is supplied the conflict error is not produced. -/
theorem C4_input_conflict (path : Str) (r toolOnPath : Bool) :
    (loadWIT path r toolOnPath = LoadOutcome.conflictError ↔ path ≠ [] ∧ r = true) ∧
    loadWIT [] false toolOnPath ≠ LoadOutcome.conflictError := by
  constructor
  · unfold loadWIT
    split_ifs with h1 h2 <;> simp_all
  · unfold loadWIT
    split_ifs with h1 h2 <;> simp_all

/-- C9: the exported entry points never trigger the both-inputs
conflict: LoadWIT calls loadWIT with a nil reader and DecodeWIT with an
empty path, so neither can return the conflict error. -/
theorem C9_no_conflict (path : Str) (tool tool2 : Bool) :
    LoadWIT path tool ≠ LoadOutcome.conflictError ∧
    DecodeWIT tool2 ≠ LoadOutcome.conflictError := by
  constructor
  · unfold LoadWIT loadWIT
    split_ifs with h1 h2 <;> simp_all
  · unfold DecodeWIT loadWIT
    split_ifs with h1 h2 <;> simp_all

/-- Witness for C7 at the concrete input :clocks (spec Scenario C). -/
theorem C7_witness :
    ((ParsePackageName ((":clocks").toList)).2.isSome = true ↔
      ((ParsePackageName ((":clocks").toList)).1.Namespace = [] ∨
        (ParsePackageName ((":clocks").toList)).1.Name = [] ∨
        ((cut ((":clocks").toList) '@').2.2 = true ∧
          newVersion (cut ((":clocks").toList) '@').2.1 = none))) ∧
    (ParsePackageName ((":clocks").toList)).2 = some PNError.missingNamespace :=
  ⟨C7_parse_error_iff.1 ((":clocks").toList), C7_parse_error_iff.2⟩

/-- Witness for C8 at a PackageName whose name contains a colon. -/
theorem C8_witness :
    (PackageName.Validate ⟨("a".toList), ("b:c".toList), none⟩ = none ↔
      ("a".toList) ≠ [] ∧ ("b:c".toList) ≠ []) ∧
    PackageName.Validate ⟨("a".toList), ("b:c".toList), none⟩ = none :=
  ⟨C8_validate_iff.1 ⟨("a".toList), ("b:c".toList), none⟩, C8_validate_iff.2⟩

/-- Witness for C4 at a concrete path with a reader supplied, tool
present. -/
theorem C4_witness :
    (loadWIT (("a.wit").toList) true true = LoadOutcome.conflictError ↔
      (("a.wit").toList) ≠ [] ∧ true = true) ∧
    loadWIT [] false true ≠ LoadOutcome.conflictError :=
  C4_input_conflict (("a.wit").toList) true true

/-- Witness for C9 at a concrete path, tool present and absent. -/
theorem C9_witness :
    LoadWIT (("a.wit").toList) true ≠ LoadOutcome.conflictError ∧
    DecodeWIT false ≠ LoadOutcome.conflictError :=
  C9_no_conflict (("a.wit").toList) true false

end WitSpec
